import Mathlib

/-!
Verification of the `pyignite` thin-client core (files `pyignite/client.py`
and `pyignite/api/affinity.py`) against its natural-language specification.

The Python code is shallowly embedded: the decoded wire structures become
Lean structures, the tidy-up / registry / node-pool logic becomes pure Lean
functions threading their state explicitly, and the network and the random
number generator become oracle parameters (`reach`, `pick`, response maps).
-/

namespace Pyignite

/-! ## Affinity: decoded partition-topology response (`api/affinity.py`)

The wire layer decodes `partition_mapping` (a `StructArray` of groups, each
with `is_applicable`, a `cache_mapping` array and a `node_mapping` array)
into the following structures.  For a non-applicable group the wire carries
`empty_cache_mapping` (cache ids only, each with no config entries) and
`empty_node_mapping` (no node entries at all). -/

structure CacheConfigEntry where
  key_type_id : Int
  affinity_key_field_id : Int
deriving DecidableEq, Repr

structure CacheMappingEntry where
  cache_id : Int
  cache_config : List CacheConfigEntry
deriving DecidableEq, Repr

structure NodeMappingEntry where
  node_uuid : Nat
  node_partitions : List Int
deriving DecidableEq, Repr

/-- One applicability group of the decoded response. -/
structure PartitionMap where
  is_applicable : Bool
  cache_mapping : List CacheMappingEntry
  node_mapping : List NodeMappingEntry
deriving DecidableEq, Repr

/-- One entry of the tidied `value['partition_mapping']` list: a Python dict
whose `cache_config` / `node_mapping` keys exist only when added (modelled
as `Option`). -/
structure MappingEntry where
  cache_id : Int
  is_applicable : Bool
  cache_config : Option (List (Int × Int))
  node_mapping : Option (List (Nat × List Int))
deriving DecidableEq, Repr

/-- The tidied `result.value` of `cache_get_node_partitions` on status 0. -/
structure AffinityValue where
  version : Int × Int
  partition_mapping : List MappingEntry
deriving DecidableEq, Repr

/-- The per-group tidy-up step of `cache_get_node_partitions`
(`affinity.py` lines 113-132): reads `cache_mapping[0]['cache_id']`
(`none` models the `IndexError` on an empty group), emits one entry with
`cache_id` and `is_applicable`, and only when `is_applicable` additionally
stores the flattened `cache_config` dict and `node_mapping` dict. -/
def tidyPartitionMap (pm : PartitionMap) : Option MappingEntry :=
  match pm.cache_mapping.head? with
  | none => none
  | some c0 =>
    if pm.is_applicable then
      some { cache_id := c0.cache_id
             is_applicable := true
             cache_config :=
               some (c0.cache_config.map fun a => (a.key_type_id, a.affinity_key_field_id))
             node_mapping :=
               some (pm.node_mapping.map fun p =>
                 (p.node_uuid, p.node_partitions)) }
    else
      some { cache_id := c0.cache_id
             is_applicable := false
             cache_config := none
             node_mapping := none }

/-- The tidy-up loop over all applicability groups, in response order. -/
def tidyAll : List PartitionMap → Option (List MappingEntry)
  | [] => some []
  | pm :: rest =>
    match tidyPartitionMap pm, tidyAll rest with
    | some e, some es => some (e :: es)
    | _, _ => none

/-- `cache_get_node_partitions` (`affinity.py` lines 104-135), given the
already-decoded response fields of a successful (status 0) reply: builds
`value` with the `(version_major, version_minor)` pair and one tidied entry
per applicability group, in response order. -/
def cache_get_node_partitions (version_major version_minor : Int)
    (partition_mapping : List PartitionMap) : Option AffinityValue :=
  match tidyAll partition_mapping with
  | none => none
  | some entries =>
    some { version := (version_major, version_minor), partition_mapping := entries }

/-! ## Type registry (`client.py`, `BaseClient` / `Client`)

Binary type names and schemas are represented by their numeric ids:
`entity_id` and `schema_id` (from `pyignite/utils.py`, not under `src/`) are
deterministic hashes with integer pass-through, so working at the id level
loses nothing the claims need.  Modelled from the spec: `schema_id` is "a
deterministic hash over the ordered (field_name, type_id) pairs" and ids are
passed through unchanged when already numeric.

A dataclass (`GenericObjectMeta` instance) is identified by its type name,
type id and schema id; the regex-based name sanitizing of
`BaseClient._create_type_name` is kept abstract (the raw server name is
stored) since no claim inspects the generated class name. -/

structure DataClass where
  type_name : String
  type_id : Nat
  schema_id : Nat
deriving DecidableEq, Repr

/-- `BaseClient._registry`: `defaultdict(dict)` mapping
type id → (schema id → dataclass), as an association list with
last-insert-wins lookup discipline (insert removes the old binding). -/
abbrev Registry := List (Nat × Nat × DataClass)

def regLookup (reg : Registry) (tid sid : Nat) : Option DataClass :=
  match reg.find? (fun e => e.1 = tid && e.2.1 = sid) with
  | some e => some e.2.2
  | none => none

/-- `self._registry[type_id][schema_id] = data_class`. -/
def regInsert (reg : Registry) (tid sid : Nat) (dc : DataClass) : Registry :=
  (tid, sid, dc) :: reg.filter (fun e => !(e.1 = tid && e.2.1 = sid))

/-- `self._registry[type_id]`: the inner dict for one type id. -/
def regTypeEntries (reg : Registry) (tid : Nat) : List (Nat × DataClass) :=
  (reg.filter (fun e => e.1 = tid)).map (fun e => e.2)

/-- Python value returned by `BaseClient._get_from_registry`: a dataclass,
`None`, or the inner schema-id dict. -/
inductive PyVal where
  | none
  | cls (c : DataClass)
  | dict (m : List (Nat × DataClass))
deriving DecidableEq, Repr

/-- Python truthiness of a `_get_from_registry` result: `None` and the
empty dict are falsy, a class object is truthy. -/
def truthy : PyVal → Bool
  | .none => false
  | .cls _ => true
  | .dict m => !m.isEmpty

/-- The `schema` argument of `query_binary_type`/`_get_from_registry`,
reduced to its schema id; `none` models Python `None`.  Python's
`if schema:` is truthiness, so the id `0` (like `None` and the empty dict)
takes the falsy branch. -/
def schemaTruthy : Option Nat → Bool
  | Option.none => false
  | some s => s != 0

/-- `BaseClient._get_from_registry` (`client.py` lines 217-229): with a
truthy schema, look up `self._registry[type_id][schema_id(schema)]`
(`KeyError` → `None`); otherwise return the whole inner dict. -/
def _get_from_registry (reg : Registry) (tid : Nat) (schema : Option Nat) : PyVal :=
  if schemaTruthy schema then
    match schema with
    | some s =>
      match regLookup reg tid s with
      | some c => .cls c
      | Option.none => .none
    | Option.none => .dict (regTypeEntries reg tid)
  else .dict (regTypeEntries reg tid)

/-- Server-side description of one binary type, as decoded by
`get_binary_type` and post-processed by `_process_get_binary_type_result`:
the type name and the schema ids the server reports (each schema's field
layout is summarized by its deterministic schema id). -/
structure TypeInfo where
  type_name : String
  schemas : List Nat
deriving DecidableEq, Repr

/-- `BinaryTypeError` carrying the server's message. -/
structure BinaryTypeError where
  message : String
deriving DecidableEq, Repr

/-- The server's wire reply to a `get_binary_type(tid)` request: a status
with message, and (on status 0) the post-processed value — `none` when
`type_exists` is false. -/
structure GetTypeResp where
  status : Nat
  message : String
  value : Option TypeInfo
deriving DecidableEq, Repr

/-- The server's wire reply to a `put_binary_type` registration (status
only). -/
structure PutTypeResp where
  status : Nat
  message : String
deriving DecidableEq, Repr

/-- Network environment: the server's reply to `get_binary_type(tid)` for
each type id, and to `put_binary_type` for each type name. -/
structure Env where
  getResp : Nat → GetTypeResp
  putResp : String → PutTypeResp

/-- Requests a client operation put on the wire, for counting/comparing
network traffic. -/
inductive Req where
  | getType (tid : Nat)
  | putType (type_name : String) (sid : Nat)
deriving DecidableEq, Repr

/-- `Client.get_binary_type` (`client.py` lines 371-392) wrapped by
`@status_to_exception(BinaryTypeError)`.  Modelled from the spec: the
decorator (`pyignite/utils.py`, not under `src/`) raises the typed error
carrying the server's message on a non-zero status and otherwise returns
the result value ("a registration or resolution request returning a
non-zero status is surfaced as a typed error carrying the server's
message"). -/
def get_binary_type (env : Env) (tid : Nat) :
    Except BinaryTypeError (Option TypeInfo) × List Req :=
  let r := env.getResp tid
  if r.status = 0 then (.ok r.value, [.getType tid])
  else (.error ⟨r.message⟩, [.getType tid])

/-- `Client.put_binary_type` (`client.py` lines 394-414) wrapped by
`@status_to_exception(BinaryTypeError)`; returns status only. -/
def put_binary_type (env : Env) (type_name : String) (sid : Nat) :
    Except BinaryTypeError Unit × List Req :=
  let r := env.putResp type_name
  if r.status = 0 then (.ok (), [.putType type_name sid])
  else (.error ⟨r.message⟩, [.putType type_name sid])

/-- `BaseClient._sync_binary_registry` (`client.py` lines 202-215): when the
type exists, insert a freshly created dataclass for every reported schema
whose id is not yet bound (`if not self._registry[type_id].get(...)`). -/
def _sync_binary_registry (tid : Nat) (type_info : Option TypeInfo)
    (reg : Registry) : Registry :=
  match type_info with
  | Option.none => reg
  | some info =>
    info.schemas.foldl
      (fun r sid =>
        if (regLookup r tid sid).isSome then r
        else regInsert r tid sid ⟨info.type_name, tid, sid⟩)
      reg

/-- `Client.query_binary_type` (`client.py` lines 436-458): registry lookup;
on a falsy result fetch the server's description, sync the registry and
retry the lookup.  The `sync` parameter is accepted (default `True` in the
source) and, exactly as in the source body, never read. -/
def query_binary_type (env : Env) (binary_type : Nat) (schema : Option Nat)
    (sync : Bool) (reg : Registry) :
    Except BinaryTypeError PyVal × Registry × List Req :=
  let tid := binary_type
  let result := _get_from_registry reg tid schema
  if truthy result then (.ok result, reg, [])
  else
    match get_binary_type env tid with
    | (.error e, reqs) => (.error e, reg, reqs)
    | (.ok type_info, reqs) =>
      let reg' := _sync_binary_registry tid type_info reg
      (.ok (_get_from_registry reg' tid schema), reg', reqs)

/-- `Client.register_binary_type` (`client.py` lines 416-434): query for
`(type_id, schema_id)`; on a falsy result send `put_binary_type`; then (on
any non-raising path) bind the local registry entry to `data_class`. -/
def register_binary_type (env : Env) (data_class : DataClass) (reg : Registry) :
    Except BinaryTypeError Unit × Registry × List Req :=
  match query_binary_type env data_class.type_id (some data_class.schema_id) true reg with
  | (.error e, reg', reqs) => (.error e, reg', reqs)
  | (.ok v, reg', reqs) =>
    if truthy v then
      (.ok (), regInsert reg' data_class.type_id data_class.schema_id data_class, reqs)
    else
      match put_binary_type env data_class.type_name data_class.schema_id with
      | (.error e, preqs) => (.error e, reg', reqs ++ preqs)
      | (.ok (), preqs) =>
        (.ok (), regInsert reg' data_class.type_id data_class.schema_id data_class,
          reqs ++ preqs)

/-- The server already knows a descriptor with this `(type_id, schema_id)`:
its `get_binary_type` reply for `tid` succeeds, reports the type as
existing, and lists `sid` among the schemas. -/
def serverKnows (env : Env) (tid sid : Nat) : Bool :=
  (env.getResp tid).status = 0 &&
    match (env.getResp tid).value with
    | some info => info.schemas.contains sid
    | Option.none => false

/-! ## Node pool (`client.py`, `Client.connect` / `Client.random_node`)

Modelled from the spec: `Connection` (`pyignite/connection.py`, not under
`src/`) is a `NodeEndpoint` with "host, port, ... liveness flag"; `connect`
performs the handshake — it succeeds or raises per the network, marks the
endpoint alive and learns the protocol version; `reconnect` schedules/
performs a reconnection, replacing the socket.  Whether a `connect` attempt
succeeds is an environment oracle `reach : Nat → Bool` on the node's pool
index, and `reconnect`'s effect on an endpoint is an oracle
`recAct : Conn → Conn`. -/

structure Conn where
  host : String
  port : Nat
  alive : Bool
  failed : Bool
  reconnectScheduled : Bool
deriving DecidableEq, Repr

/-- Protocol versions are `(major, minor, patch)` triples compared like
Python tuples (lexicographically). -/
abbrev Version := Nat × Nat × Nat

def verLE (a b : Version) : Bool :=
  a.1 < b.1 || (a.1 = b.1 && (a.2.1 < b.2.1 || (a.2.1 = b.2.1 && a.2.2 ≤ b.2.2)))

/-- Client/pool state shared by `connect` and `random_node`:
`self._nodes`, `self._current_node`, the constructor flag
`self._partition_aware` and `self._protocol_version`. -/
structure PoolState where
  nodes : List Conn
  currentNode : Nat
  partitionAwareFlag : Bool
  protocolVersion : Option Version
deriving DecidableEq, Repr

/-- `BaseClient.partition_awareness_supported_by_protocol` (`client.py`
lines 105-107): a version has been negotiated and is at least `(1, 4, 0)`. -/
def partition_awareness_supported_by_protocol : Option Version → Bool
  | Option.none => false
  | some v => verLE (1, 4, 0) v

/-- `BaseClient.partition_aware` (`client.py` lines 101-103). -/
def partition_aware (st : PoolState) : Bool :=
  st.partitionAwareFlag && partition_awareness_supported_by_protocol st.protocolVersion

/-- Result of `Client.random_node`: a usable connection, or the
`ReconnectError` raised when the pool is exhausted. -/
inductive RNResult where
  | conn (c : Conn)
  | reconnectError
deriving DecidableEq, Repr

/-- The failover scan order of the sequential branch of `random_node`:
`chain(range(self._current_node, num_nodes), range(self._current_node))`. -/
def scanOrder (start n : Nat) : List Nat :=
  List.range' start (n - start) ++ List.range start

/-- The sequential (non-partition-aware) branch of `Client.random_node`
(`client.py` lines 328-356): return the current node if alive; otherwise
close it, advance `_current_node` with wraparound, and scan all indices in
`scanOrder`, connecting each in turn; the first successful connect wins,
and `ReconnectError` is raised when every attempt fails.  `none` models the
`IndexError` of `self._nodes[self._current_node]` on a bad index. -/
def seqSelect (reach : Nat → Bool) (st : PoolState) : Option (RNResult × PoolState) :=
  match st.nodes.get? st.currentNode with
  | Option.none => Option.none
  | some node =>
    if node.alive then some (.conn node, st)
    else
      let nodes₁ := st.nodes.set st.currentNode { node with alive := false }
      let n := st.nodes.length
      let cur' := if st.currentNode + 1 ≥ n then 0 else st.currentNode + 1
      match (scanOrder cur' n).find? reach with
      | some i =>
        match nodes₁.get? i with
        | some ni =>
          some (.conn { ni with alive := true, failed := false },
                { st with nodes := nodes₁.set i { ni with alive := true, failed := false },
                          currentNode := cur' })
        | Option.none => Option.none
      | Option.none =>
        some (.reconnectError, { st with nodes := nodes₁, currentNode := cur' })

/-- `random.choice` over a list, the random draw supplied as an index
oracle `pick` reduced modulo the length; `none` on the empty list (where
`random.choice` raises). -/
def chooseFrom (pick : Nat) : List Conn → Option Conn
  | [] => Option.none
  | a :: as => some ((a :: as).get ⟨pick % (as.length + 1), Nat.mod_lt _ (Nat.succ_pos as.length)⟩)

/-- `Client._get_random_node` (`client.py` lines 358-369), its bounded
recursion (`reconnect=True` then `reconnect=False`) unrolled: choose among
the alive nodes; if none, reconnect every node once in pool order (oracle
`recAct`) and retry the choice exactly once; if still none, raise
`ReconnectError`. -/
def _get_random_node (pick₁ pick₂ : Nat) (recAct : Conn → Conn)
    (nodes : List Conn) : RNResult × List Conn :=
  match chooseFrom pick₁ (nodes.filter (·.alive)) with
  | some c => (.conn c, nodes)
  | Option.none =>
    let nodes' := nodes.map recAct
    match chooseFrom pick₂ (nodes'.filter (·.alive)) with
    | some c => (.conn c, nodes')
    | Option.none => (.reconnectError, nodes')

/-- `Client.random_node` (`client.py` lines 316-356): dispatch on the
`partition_aware` property, the partition-aware branch delegating to
`_get_random_node` and the default branch to the sequential failover. -/
def random_node (reach : Nat → Bool) (pick₁ pick₂ : Nat) (recAct : Conn → Conn)
    (st : PoolState) : Option (RNResult × PoolState) :=
  if partition_aware st then
    let (r, ns) := _get_random_node pick₁ pick₂ recAct st.nodes
    some (r, { st with nodes := ns })
  else
    seqSelect reach st

/-! ### `Client.connect` (`client.py` lines 262-309) -/

/-- Pool-construction state threaded through `Client.connect`'s loop. -/
structure ConnectState where
  protocolVersion : Option Version
  nodes : List Conn
  currentNode : Nat
deriving DecidableEq, Repr

/-- `partition_aware` as read inside `connect`, before the pool state
exists as such. -/
def paProp (flag : Bool) (pv : Option Version) : Bool :=
  flag && partition_awareness_supported_by_protocol pv

/-- One iteration of `Client.connect`'s loop for candidate `i = (host,
port)`: attempt `conn.connect` only while no protocol version is known or
the `partition_aware` property holds; a successful handshake learns the
server's version `srvVer` and, when `partition_aware` is (still) false,
records `_current_node = i`; a failure marks the connection failed and
schedules `conn.reconnect()` only when `partition_aware` held at that
moment; the connection is appended to the pool in every case. -/
def connectStep (reach : Nat → Bool) (srvVer : Version) (flag : Bool)
    (i : Nat) (st : ConnectState) (host : String) (port : Nat) : ConnectState :=
  let conn₀ : Conn := ⟨host, port, false, false, false⟩
  if st.protocolVersion.isNone || paProp flag st.protocolVersion then
    if reach i then
      let pv' := some srvVer
      let cur' := if !(paProp flag pv') then i else st.currentNode
      { protocolVersion := pv'
        nodes := st.nodes ++ [{ conn₀ with alive := true }]
        currentNode := cur' }
    else
      { st with nodes := st.nodes ++
          [{ conn₀ with failed := true,
                        reconnectScheduled := paProp flag st.protocolVersion }] }
  else
    { st with nodes := st.nodes ++ [conn₀] }

/-- The candidate loop of `Client.connect`, `i` the index of the first
remaining candidate. -/
def connectLoop (reach : Nat → Bool) (srvVer : Version) (flag : Bool) :
    Nat → ConnectState → List (String × Nat) → ConnectState
  | _, st, [] => st
  | i, st, c :: cs =>
    connectLoop reach srvVer flag (i + 1) (connectStep reach srvVer flag i st c.1 c.2) cs

/-- `Client.connect` over an explicit candidate list: run the loop from an
empty pool with no negotiated version and raise `ReconnectError` (the
`error` case) exactly when `self.protocol_version is None` at the end. -/
def connect (reach : Nat → Bool) (srvVer : Version) (flag : Bool)
    (candidates : List (String × Nat)) : Except Unit ConnectState :=
  let final := connectLoop reach srvVer flag 0 ⟨Option.none, [], 0⟩ candidates
  if final.protocolVersion.isNone then .error () else .ok final

/-! ## Theorems -/

theorem tidyAll_mem {pms : List PartitionMap} {es : List MappingEntry}
    (h : tidyAll pms = some es) : ∀ e ∈ es, ∃ pm ∈ pms, tidyPartitionMap pm = some e := by
  induction pms generalizing es with
  | nil =>
    simp only [tidyAll, Option.some.injEq] at h
    subst h; intro e he; cases he
  | cons pm rest ih =>
    intro e he
    simp only [tidyAll] at h
    cases hpm : tidyPartitionMap pm with
    | none => rw [hpm] at h; cases h
    | some e0 =>
      rw [hpm] at h
      cases hrest : tidyAll rest with
      | none => rw [hrest] at h; cases h
      | some es' =>
        rw [hrest] at h
        simp only [Option.some.injEq] at h
        subst h
        cases he with
        | head => exact ⟨pm, List.mem_cons_self .., hpm⟩
        | tail _ he' =>
          obtain ⟨pm', hpm', hx⟩ := ih hrest e he'
          exact ⟨pm', List.mem_cons_of_mem _ hpm', hx⟩

theorem tidyPartitionMap_shape {pm : PartitionMap} {e : MappingEntry}
    (h : tidyPartitionMap pm = some e) :
    (e.is_applicable = false → e.cache_config = Option.none ∧ e.node_mapping = Option.none) ∧
    (e.is_applicable = true → e.cache_config.isSome = true ∧ e.node_mapping.isSome = true) := by
  unfold tidyPartitionMap at h
  cases hhd : pm.cache_mapping.head? with
  | none => rw [hhd] at h; cases h
  | some c0 =>
    rw [hhd] at h
    cases hap : pm.is_applicable <;> rw [hap] at h <;> simp at h <;> subst h <;> simp

/-- C9: in a tidied successful partition-topology response, entries of
non-applicable groups carry only the cache id and the flag (`cache_config`
and `node_mapping` keys absent), while applicable groups carry both. -/
theorem cache_partitions_inapplicable_bare (vmaj vmin : Int)
    (pms : List PartitionMap) (v : AffinityValue)
    (hv : cache_get_node_partitions vmaj vmin pms = some v) :
    ∀ e ∈ v.partition_mapping,
      (e.is_applicable = false → e.cache_config = Option.none ∧ e.node_mapping = Option.none) ∧
      (e.is_applicable = true → e.cache_config.isSome = true ∧ e.node_mapping.isSome = true) := by
  unfold cache_get_node_partitions at hv
  cases hall : tidyAll pms with
  | none => rw [hall] at hv; cases hv
  | some es =>
    rw [hall] at hv
    simp only [Option.some.injEq] at hv
    subst hv
    intro e he
    obtain ⟨pm, _, hpm⟩ := tidyAll_mem hall e he
    exact tidyPartitionMap_shape hpm

/-- Witness for C9 at a concrete one-group inapplicable response. -/
theorem cache_partitions_inapplicable_bare_witness :
    (⟨3, false, Option.none, Option.none⟩ : MappingEntry).cache_config = Option.none ∧
    (⟨3, false, Option.none, Option.none⟩ : MappingEntry).node_mapping = Option.none := by
  have h := cache_partitions_inapplicable_bare 1 0
    [⟨false, [⟨3, []⟩], []⟩] ⟨(1, 0), [⟨3, false, Option.none, Option.none⟩]⟩ rfl
  exact (h ⟨3, false, Option.none, Option.none⟩ (by simp)).1 rfl

/-- C1 (code evaluated at the failing input): for a response with a single
applicability group covering cache ids 7 and 9 with shared node map
`{UUID 10 ↦ [0, 1, 2]}`, the tidy-up of `cache_get_node_partitions` emits
exactly one entry — for cache id 7, the group's `cache_mapping[0]` — and no
entry for cache id 9. -/
theorem cache_partitions_group_not_expanded :
    cache_get_node_partitions 1 0
      [⟨true, [⟨7, []⟩, ⟨9, []⟩], [⟨10, [0, 1, 2]⟩]⟩]
      = some ⟨(1, 0), [⟨7, true, some [], some [(10, [0, 1, 2])]⟩]⟩ ∧
    (cache_get_node_partitions 1 0
      [⟨true, [⟨7, []⟩, ⟨9, []⟩], [⟨10, [0, 1, 2]⟩]⟩]).map
        (fun v => v.partition_mapping.map (fun e => e.cache_id)) = some [7] :=
  ⟨rfl, rfl⟩

/-- C10: the `sync` parameter of `query_binary_type` is never read by its
body, so the call behaves identically — same result, same registry, same
network requests — for `sync=True` and `sync=False`. -/
theorem query_binary_type_sync_irrelevant (env : Env) (binary_type : Nat)
    (schema : Option Nat) (reg : Registry) :
    query_binary_type env binary_type schema true reg
      = query_binary_type env binary_type schema false reg := rfl

/-- C6: once a `query_binary_type` call for `(type_id, schema)` has
completed successfully with a non-empty (truthy) result, repeating the call
on the resulting registry returns the same value and issues no network
request. -/
theorem query_binary_type_idempotent (env : Env) (tid : Nat)
    (schema : Option Nat) (s₁ s₂ : Bool) (reg reg' : Registry) (v : PyVal)
    (reqs : List Req)
    (h1 : query_binary_type env tid schema s₁ reg = (.ok v, reg', reqs))
    (hne : truthy v = true) :
    query_binary_type env tid schema s₂ reg' = (.ok v, reg', []) := by
  by_cases h : truthy (_get_from_registry reg tid schema) = true
  · have h1' : _get_from_registry reg tid schema = v ∧ reg = reg' := by
      simp [query_binary_type, h] at h1
      exact ⟨h1.1, h1.2.1⟩
    obtain ⟨hv, hreg⟩ := h1'
    subst hreg
    simp [query_binary_type, hv, hne]
  · by_cases hst : (env.getResp tid).status = 0
    · have hg : get_binary_type env tid
          = (.ok (env.getResp tid).value, [.getType tid]) := by
        simp [get_binary_type, hst]
      have h1' :
          _get_from_registry (_sync_binary_registry tid (env.getResp tid).value reg)
              tid schema = v
          ∧ _sync_binary_registry tid (env.getResp tid).value reg = reg' := by
        simp [query_binary_type, h, hg] at h1
        exact ⟨h1.1, h1.2.1⟩
      obtain ⟨hv, hreg⟩ := h1'
      subst hreg
      simp [query_binary_type, hv, hne]
    · have hg : get_binary_type env tid
          = (.error ⟨(env.getResp tid).message⟩, [.getType tid]) := by
        simp [get_binary_type, hst]
      simp [query_binary_type, h, hg] at h1

/-- Witness for C6: a first resolving call for type 7, schema 5 against a
server that knows that schema, then the repeat call on the synced
registry. -/
theorem query_binary_type_idempotent_witness :
    query_binary_type
      ⟨fun _ => ⟨0, "", some ⟨"T", [5]⟩⟩, fun _ => ⟨0, ""⟩⟩ 7 (some 5) false
      [(7, 5, ⟨"T", 7, 5⟩)]
      = (.ok (.cls ⟨"T", 7, 5⟩), [(7, 5, ⟨"T", 7, 5⟩)], []) :=
  query_binary_type_idempotent ⟨fun _ => ⟨0, "", some ⟨"T", [5]⟩⟩, fun _ => ⟨0, ""⟩⟩
    7 (some 5) true false [] [(7, 5, ⟨"T", 7, 5⟩)] (.cls ⟨"T", 7, 5⟩)
    [.getType 7] rfl rfl

/-- C5: a `get_binary_type` or `put_binary_type` reply with a non-zero
status raises `BinaryTypeError` carrying the server's message, and the
failed operation leaves the local registry unchanged (shown on the
resolution path of `query_binary_type` and the registration path of
`register_binary_type`). -/
theorem binary_type_error_propagation (env : Env) (tid : Nat)
    (schema : Option Nat) (reg : Registry) (dc : DataClass) :
    ((env.getResp tid).status ≠ 0 →
      get_binary_type env tid
        = (.error ⟨(env.getResp tid).message⟩, [.getType tid]) ∧
      (truthy (_get_from_registry reg tid schema) = false →
        query_binary_type env tid schema true reg
          = (.error ⟨(env.getResp tid).message⟩, reg, [.getType tid]))) ∧
    ((env.putResp dc.type_name).status ≠ 0 →
      (env.getResp dc.type_id).status = 0 →
      (env.getResp dc.type_id).value = Option.none →
      regLookup reg dc.type_id dc.schema_id = Option.none →
      dc.schema_id ≠ 0 →
      register_binary_type env dc reg
        = (.error ⟨(env.putResp dc.type_name).message⟩, reg,
           [.getType dc.type_id, .putType dc.type_name dc.schema_id])) := by
  constructor
  · intro hst
    have hg : get_binary_type env tid
        = (.error ⟨(env.getResp tid).message⟩, [.getType tid]) := by
      simp [get_binary_type, hst]
    refine ⟨hg, fun hmiss => ?_⟩
    simp [query_binary_type, hmiss, hg]
  · intro hput hst hval hlook hsid
    have hmiss : _get_from_registry reg dc.type_id (some dc.schema_id) = .none := by
      simp [_get_from_registry, schemaTruthy, hsid, hlook]
    have hg : get_binary_type env dc.type_id
        = (.ok Option.none, [.getType dc.type_id]) := by
      simp [get_binary_type, hst, hval]
    have hq : query_binary_type env dc.type_id (some dc.schema_id) true reg
        = (.ok .none, reg, [.getType dc.type_id]) := by
      simp [query_binary_type, hmiss, truthy, hg, _sync_binary_registry]
    have hp : put_binary_type env dc.type_name dc.schema_id
        = (.error ⟨(env.putResp dc.type_name).message⟩,
           [.putType dc.type_name dc.schema_id]) := by
      simp [put_binary_type, hput]
    simp [register_binary_type, hq, truthy, hp]

/-- Witness for C5: a server answering `get_binary_type` with status 1 /
"boom" and `put_binary_type` with status 2 / "nope", evaluated on an empty
registry for type 7, schema 5. -/
theorem binary_type_error_propagation_witness :
    query_binary_type ⟨fun _ => ⟨1, "boom", Option.none⟩, fun _ => ⟨2, "nope"⟩⟩
        7 (some 5) true [] = (.error ⟨"boom"⟩, [], [.getType 7]) ∧
    register_binary_type ⟨fun _ => ⟨0, "", Option.none⟩, fun _ => ⟨2, "nope"⟩⟩
        ⟨"T", 7, 5⟩ [] = (.error ⟨"nope"⟩, [], [.getType 7, .putType "T" 5]) := by
  constructor
  · exact ((binary_type_error_propagation
      ⟨fun _ => ⟨1, "boom", Option.none⟩, fun _ => ⟨2, "nope"⟩⟩ 7 (some 5) []
      ⟨"T", 7, 5⟩).1 (by decide)).2 rfl
  · exact (binary_type_error_propagation
      ⟨fun _ => ⟨0, "", Option.none⟩, fun _ => ⟨2, "nope"⟩⟩ 7 (some 5) []
      ⟨"T", 7, 5⟩).2 (by decide) rfl rfl rfl (by decide)

theorem regLookup_insert (reg : Registry) (k1 k2 tid sid : Nat) (dc : DataClass) :
    regLookup (regInsert reg k1 k2 dc) tid sid =
      if tid = k1 ∧ sid = k2 then some dc else regLookup reg tid sid := by
  by_cases hk : tid = k1 ∧ sid = k2
  · obtain ⟨h1, h2⟩ := hk
    subst h1; subst h2
    simp [regLookup, regInsert]
  · rw [if_neg hk]
    have hhd : ¬(k1 = tid ∧ k2 = sid) := fun ⟨a, b⟩ => hk ⟨a.symm, b.symm⟩
    unfold regLookup regInsert
    rw [List.find?_cons_of_neg _ (by simpa using hhd)]
    rw [List.find?_filter]
    have hfun :
        (fun e : Nat × Nat × DataClass =>
            decide ((!(decide (e.1 = k1) && decide (e.2.1 = k2))) = true
              ∧ (decide (e.1 = tid) && decide (e.2.1 = sid)) = true))
          = (fun e : Nat × Nat × DataClass =>
              decide (e.1 = tid) && decide (e.2.1 = sid)) := by
      funext e
      by_cases h1 : e.1 = tid <;> by_cases h2 : e.2.1 = sid <;>
        simp [h1, h2] <;> try tauto
    simp only [hfun]

/-- `_sync_binary_registry`'s fold step preserves an already-known key. -/
theorem sync_preserves_known (tid : Nat) (name : String) (l : List Nat)
    (reg : Registry) (sid : Nat)
    (h : (regLookup reg tid sid).isSome = true) :
    (regLookup
      (l.foldl (fun r s =>
        if (regLookup r tid s).isSome then r else regInsert r tid s ⟨name, tid, s⟩) reg)
      tid sid).isSome = true := by
  induction l generalizing reg with
  | nil => exact h
  | cons a l ih =>
    simp only [List.foldl_cons]
    apply ih
    by_cases ha : (regLookup reg tid a).isSome = true
    · rw [if_pos ha]; exact h
    · rw [if_neg ha]
      rw [regLookup_insert]
      by_cases hsa : sid = a
      · subst hsa; simp
      · rw [if_neg (fun hc => hsa hc.2)]; exact h

/-- After syncing a type whose server description lists `sid`, the key
`(tid, sid)` is bound. -/
theorem sync_binds_listed (tid sid : Nat) (info : TypeInfo) (reg : Registry)
    (hsid : sid ∈ info.schemas) :
    (regLookup (_sync_binary_registry tid (some info) reg) tid sid).isSome = true := by
  unfold _sync_binary_registry
  obtain ⟨name, schemas⟩ := info
  simp only at hsid ⊢
  induction schemas generalizing reg with
  | nil => cases hsid
  | cons a l ih =>
    simp only [List.foldl_cons]
    cases hsid with
    | head =>
      apply sync_preserves_known
      by_cases ha : (regLookup reg tid sid).isSome = true
      · rw [if_pos ha]; exact ha
      · rw [if_neg ha]
        rw [regLookup_insert]
        simp
    | tail _ hmem => exact ih _ hmem

/-- Syncing never binds a key the server does not list. -/
theorem sync_skips_unlisted (tid sid : Nat) (type_info : Option TypeInfo)
    (reg : Registry)
    (hsid : ∀ info, type_info = some info → sid ∉ info.schemas) :
    regLookup (_sync_binary_registry tid type_info reg) tid sid
      = regLookup reg tid sid := by
  unfold _sync_binary_registry
  cases type_info with
  | none => rfl
  | some info =>
    have hmem := hsid info rfl
    clear hsid
    obtain ⟨name, schemas⟩ := info
    simp only at hmem ⊢
    induction schemas generalizing reg with
    | nil => rfl
    | cons a l ih =>
      simp only [List.foldl_cons]
      have hna : sid ≠ a := fun hc => hmem (hc ▸ List.mem_cons_self ..)
      have hmem' : sid ∉ l := fun hc => hmem (List.mem_cons_of_mem _ hc)
      rw [ih _ hmem']
      by_cases ha : (regLookup reg tid a).isSome = true
      · rw [if_pos ha]
      · rw [if_neg ha]
        rw [regLookup_insert]
        rw [if_neg (fun hc => hna hc.2)]

/-- C4: `register_binary_type` sends a `put_binary_type` registration
request exactly when no descriptor with the same `(type_id, schema_id)` is
already known to the server, and on every non-raising run it binds the
local registry entry for that key to the given class, overwriting any
previous binding.  Hypotheses: the schema id is truthy, the server lookup
itself succeeds, and the local cache is coherent with the server (a local
binding for the key implies the server knows it — local entries are only
ever populated from server replies). -/
theorem register_binary_type_spec (env : Env) (dc : DataClass) (reg : Registry)
    (hsid : dc.schema_id ≠ 0)
    (hok : (env.getResp dc.type_id).status = 0)
    (hcoh : (regLookup reg dc.type_id dc.schema_id).isSome = true →
            serverKnows env dc.type_id dc.schema_id = true) :
    (Req.putType dc.type_name dc.schema_id ∈ (register_binary_type env dc reg).2.2
       ↔ serverKnows env dc.type_id dc.schema_id = false) ∧
    ((register_binary_type env dc reg).1 = Except.ok () →
       regLookup (register_binary_type env dc reg).2.1 dc.type_id dc.schema_id
         = some dc) := by
  have hg : get_binary_type env dc.type_id
      = (.ok (env.getResp dc.type_id).value, [.getType dc.type_id]) := by
    simp [get_binary_type, hok]
  have hins : ∀ r : Registry,
      regLookup (regInsert r dc.type_id dc.schema_id dc) dc.type_id dc.schema_id
        = some dc := by
    intro r
    rw [regLookup_insert]
    simp
  by_cases hloc : (regLookup reg dc.type_id dc.schema_id).isSome = true
  · -- local hit: no network at all, registry overwritten
    obtain ⟨c, hc⟩ := Option.isSome_iff_exists.mp hloc
    have hgetreg : _get_from_registry reg dc.type_id (some dc.schema_id) = .cls c := by
      simp [_get_from_registry, schemaTruthy, hsid, hc]
    have hreg : register_binary_type env dc reg
        = (.ok (), regInsert reg dc.type_id dc.schema_id dc, []) := by
      simp [register_binary_type, query_binary_type, hgetreg, truthy]
    rw [hreg]
    refine ⟨?_, fun _ => hins reg⟩
    simp [hcoh hloc]
  · -- local miss: resolution round-trip happens
    have hnone : regLookup reg dc.type_id dc.schema_id = Option.none := by
      cases h : regLookup reg dc.type_id dc.schema_id with
      | none => rfl
      | some c => rw [h] at hloc; simp at hloc
    have hgetreg : _get_from_registry reg dc.type_id (some dc.schema_id) = .none := by
      simp [_get_from_registry, schemaTruthy, hsid, hnone]
    by_cases hsk : serverKnows env dc.type_id dc.schema_id = true
    · -- server knows the pair: sync binds it, no put request
      have hlisted : ∃ info, (env.getResp dc.type_id).value = some info
          ∧ dc.schema_id ∈ info.schemas := by
        unfold serverKnows at hsk
        rw [hok] at hsk
        cases hval : (env.getResp dc.type_id).value with
        | none => rw [hval] at hsk; simp at hsk
        | some info =>
          rw [hval] at hsk
          simp at hsk
          exact ⟨info, rfl, hsk⟩
      obtain ⟨info, hval, hmem⟩ := hlisted
      have hbound := sync_binds_listed dc.type_id dc.schema_id info reg hmem
      obtain ⟨c, hc⟩ := Option.isSome_iff_exists.mp hbound
      have hget2 : _get_from_registry
          (_sync_binary_registry dc.type_id (some info) reg) dc.type_id
          (some dc.schema_id) = .cls c := by
        simp [_get_from_registry, schemaTruthy, hsid, hc]
      have hq : query_binary_type env dc.type_id (some dc.schema_id) true reg
          = (.ok (.cls c), _sync_binary_registry dc.type_id (some info) reg,
             [.getType dc.type_id]) := by
        simp [query_binary_type, hgetreg, truthy, hg, hval, hget2]
      have hreg : register_binary_type env dc reg
          = (.ok (), regInsert (_sync_binary_registry dc.type_id (some info) reg)
              dc.type_id dc.schema_id dc, [.getType dc.type_id]) := by
        simp [register_binary_type, hq, truthy]
      rw [hreg]
      refine ⟨?_, fun _ => hins _⟩
      simp [hsk]
    · -- server does not know the pair: sync leaves it unbound, put is sent
      have hsk' : serverKnows env dc.type_id dc.schema_id = false := by
        cases h : serverKnows env dc.type_id dc.schema_id with
        | false => rfl
        | true => exact absurd h hsk
      have hunlisted : ∀ info, (env.getResp dc.type_id).value = some info →
          dc.schema_id ∉ info.schemas := by
        intro info hval hmem
        apply hsk
        unfold serverKnows
        rw [hok, hval]
        simp [hmem]
      have hskip := sync_skips_unlisted dc.type_id dc.schema_id
        (env.getResp dc.type_id).value reg hunlisted
      have hget2 : _get_from_registry
          (_sync_binary_registry dc.type_id (env.getResp dc.type_id).value reg)
          dc.type_id (some dc.schema_id) = .none := by
        simp [_get_from_registry, schemaTruthy, hsid, hskip, hnone]
      have hq : query_binary_type env dc.type_id (some dc.schema_id) true reg
          = (.ok .none,
             _sync_binary_registry dc.type_id (env.getResp dc.type_id).value reg,
             [.getType dc.type_id]) := by
        simp [query_binary_type, hgetreg, truthy, hg, hget2]
      by_cases hput : (env.putResp dc.type_name).status = 0
      · have hreg : register_binary_type env dc reg
            = (.ok (), regInsert
                (_sync_binary_registry dc.type_id (env.getResp dc.type_id).value reg)
                dc.type_id dc.schema_id dc,
               [.getType dc.type_id, .putType dc.type_name dc.schema_id]) := by
          simp [register_binary_type, hq, truthy, put_binary_type, hput]
        rw [hreg]
        exact ⟨by simp [hsk'], fun _ => hins _⟩
      · have hreg : register_binary_type env dc reg
            = (.error ⟨(env.putResp dc.type_name).message⟩,
               _sync_binary_registry dc.type_id (env.getResp dc.type_id).value reg,
               [.getType dc.type_id, .putType dc.type_name dc.schema_id]) := by
          simp [register_binary_type, hq, truthy, put_binary_type, hput]
        rw [hreg]
        exact ⟨by simp [hsk'], by simp⟩

/-- Witness for C4: registering class `⟨"T", 7, 5⟩` on an empty registry
against a server that reports type 7 without schema 5: the put request is
sent and the registry ends up binding `(7, 5)` to the class. -/
theorem register_binary_type_spec_witness :
    (Req.putType "T" 5 ∈ (register_binary_type
        ⟨fun _ => ⟨0, "", some ⟨"T", []⟩⟩, fun _ => ⟨0, ""⟩⟩ ⟨"T", 7, 5⟩ []).2.2) ∧
    regLookup (register_binary_type
        ⟨fun _ => ⟨0, "", some ⟨"T", []⟩⟩, fun _ => ⟨0, ""⟩⟩ ⟨"T", 7, 5⟩ []).2.1 7 5
      = some ⟨"T", 7, 5⟩ := by
  have h := register_binary_type_spec
    ⟨fun _ => ⟨0, "", some ⟨"T", []⟩⟩, fun _ => ⟨0, ""⟩⟩ ⟨"T", 7, 5⟩ []
    (by decide) rfl (by intro hc; simp [regLookup] at hc)
  exact ⟨h.1.mpr rfl, h.2 rfl⟩

/-- The failover scan of the sequential branch visits exactly the indices
below the pool size. -/
theorem mem_scanOrder {start n i : Nat} (h : start ≤ n) :
    i ∈ scanOrder start n ↔ i < n := by
  simp only [scanOrder, List.mem_append, List.mem_range, List.mem_range']
  constructor
  · rintro (⟨j, hj, rfl⟩ | hi) <;> omega
  · intro hi
    by_cases hs : start ≤ i
    · exact Or.inl ⟨i - start, by omega, by omega⟩
    · exact Or.inr (by omega)

/-- C2: under the sequential policy, `random_node` returns the node at the
current index when it is alive; otherwise it closes it, advances the index
with wraparound, scans forward connecting each node in turn, returns the
first node whose connect succeeds, and raises `ReconnectError` exactly when
every node's connect attempt fails. -/
theorem random_node_sequential_failover (reach : Nat → Bool) (p₁ p₂ : Nat)
    (recAct : Conn → Conn) (st : PoolState) (node : Conn)
    (hseq : partition_aware st = false)
    (hcur : st.nodes.get? st.currentNode = some node) :
    (node.alive = true → random_node reach p₁ p₂ recAct st = some (.conn node, st)) ∧
    (node.alive = false →
      (((random_node reach p₁ p₂ recAct st).map Prod.fst
          = some RNResult.reconnectError)
        ↔ ∀ i < st.nodes.length, reach i = false) ∧
      (∀ i, (scanOrder
              (if st.currentNode + 1 ≥ st.nodes.length then 0
               else st.currentNode + 1) st.nodes.length).find? reach = some i →
        reach i = true ∧
        ∃ ni, st.nodes.get? i = some ni ∧
          (random_node reach p₁ p₂ recAct st).map Prod.fst
            = some (RNResult.conn { ni with alive := true, failed := false }))) := by
  obtain ⟨hlen, -⟩ := List.get?_eq_some.mp hcur
  have hcur2 : st.nodes[st.currentNode]? = some node := by
    rw [← List.get?_eq_getElem?]; exact hcur
  have hrn : random_node reach p₁ p₂ recAct st = seqSelect reach st := by
    simp [random_node, hseq]
  have hstart : (if st.currentNode + 1 ≥ st.nodes.length then 0
      else st.currentNode + 1) ≤ st.nodes.length := by
    by_cases hc : st.currentNode + 1 ≥ st.nodes.length <;> simp [hc] <;> omega
  constructor
  · intro halive
    rw [hrn]
    simp [seqSelect, hcur2, halive]
  · intro hdead
    cases hfind : (scanOrder
        (if st.currentNode + 1 ≥ st.nodes.length then 0 else st.currentNode + 1)
        st.nodes.length).find? reach with
    | none =>
      have hfind2 : (scanOrder
          (if st.nodes.length ≤ st.currentNode + 1 then 0 else st.currentNode + 1)
          st.nodes.length).find? reach = Option.none := by
        simpa [ge_iff_le] using hfind
      have hsel : seqSelect reach st
          = some (.reconnectError,
              { st with nodes := st.nodes.set st.currentNode { node with alive := false },
                        currentNode := if st.currentNode + 1 ≥ st.nodes.length then 0
                          else st.currentNode + 1 }) := by
        simp [seqSelect, hcur2, hdead, hfind2, ge_iff_le]
      rw [hrn, hsel]
      refine ⟨⟨fun _ i hi => ?_, fun _ => rfl⟩, fun i hi => absurd hi (by simp)⟩
      have := List.find?_eq_none.mp hfind i ((mem_scanOrder hstart).mpr hi)
      simpa using this
    | some i =>
      have hfind2 : (scanOrder
          (if st.nodes.length ≤ st.currentNode + 1 then 0 else st.currentNode + 1)
          st.nodes.length).find? reach = some i := by
        simpa [ge_iff_le] using hfind
      have hreach : reach i = true := List.find?_some hfind
      have hin : i < st.nodes.length :=
        (mem_scanOrder hstart).mp (List.mem_of_find?_eq_some hfind)
      have hni₁ : (st.nodes.set st.currentNode { node with alive := false })[i]?
          = some (if i = st.currentNode then { node with alive := false }
                  else st.nodes.get ⟨i, hin⟩) := by
        by_cases hic : i = st.currentNode
        · subst hic
          simp [List.getElem?_set_self hin]
        · rw [List.getElem?_set_ne (fun hc => hic hc.symm)]
          simp [hic, List.getElem?_eq_some_iff.mpr ⟨hin, rfl⟩]
      have hsel : seqSelect reach st
          = some (.conn { (if i = st.currentNode then { node with alive := false }
                           else st.nodes.get ⟨i, hin⟩) with alive := true, failed := false },
              { st with
                  nodes := (st.nodes.set st.currentNode
                      { node with alive := false }).set i
                    { (if i = st.currentNode then { node with alive := false }
                       else st.nodes.get ⟨i, hin⟩) with alive := true, failed := false },
                  currentNode := if st.currentNode + 1 ≥ st.nodes.length then 0
                    else st.currentNode + 1 }) := by
        simp only [seqSelect, List.get?_eq_getElem?, hcur2, hdead, ge_iff_le, hfind2, hni₁]
        rfl
      constructor
      · refine iff_of_false ?_ ?_
        · intro hmap
          rw [hrn, hsel] at hmap
          simp at hmap
        · intro hall
          have := hall i hin
          rw [hreach] at this
          cases this
      · intro j hj
        cases hj
        refine ⟨hreach, (if i = st.currentNode then { node with alive := false }
                         else st.nodes.get ⟨i, hin⟩), ?_, ?_⟩
        · by_cases hic : i = st.currentNode
          · subst hic
            rw [hcur, if_pos rfl]
            have hd : ({ node with alive := false } : Conn) = node := by
              obtain ⟨h, p, a, f, r⟩ := node
              simp only at hdead
              subst hdead
              rfl
            rw [hd]
          · rw [if_neg hic, List.get?_eq_getElem?,
              List.getElem?_eq_some_iff]
            exact ⟨hin, rfl⟩
        · rw [hrn, hsel]
          simp

/-- Witness for C2: a 3-node sequential pool, current index 0, where nodes
1 and 2 (indices 0, 1) are dead/unreachable and node 3 (index 2) is
reachable: the first call returns node 3, reconnected. -/
theorem random_node_sequential_failover_witness :
    (random_node (fun i => decide (i = 2)) 0 0 id
        ⟨[⟨"n1", 1, false, false, false⟩, ⟨"n2", 2, false, false, false⟩,
          ⟨"n3", 3, false, false, false⟩], 0, false, Option.none⟩).map Prod.fst
      = some (.conn ⟨"n3", 3, true, false, false⟩) := by
  have h := (random_node_sequential_failover (fun i => decide (i = 2)) 0 0 id
      ⟨[⟨"n1", 1, false, false, false⟩, ⟨"n2", 2, false, false, false⟩,
        ⟨"n3", 3, false, false, false⟩], 0, false, Option.none⟩
      ⟨"n1", 1, false, false, false⟩ rfl rfl).2 rfl
  obtain ⟨-, ni, hni, hres⟩ := h.2 2 rfl
  have hni' : (⟨"n3", 3, false, false, false⟩ : Conn) = ni :=
    Option.some.inj hni
  rw [← hni'] at hres
  exact hres

theorem chooseFrom_eq_get? (p : Nat) (l : List Conn) (c : Conn)
    (h : l.get? (p % l.length) = some c) : chooseFrom p l = some c := by
  cases l with
  | nil => cases h
  | cons a as =>
    obtain ⟨hlt, heq⟩ := List.get?_eq_some.mp h
    unfold chooseFrom
    rw [Option.some.injEq]
    exact heq

theorem chooseFrom_mem {p : Nat} {l : List Conn} {c : Conn}
    (h : chooseFrom p l = some c) : c ∈ l := by
  cases l with
  | nil => cases h
  | cons a as =>
    unfold chooseFrom at h
    rw [Option.some.injEq] at h
    exact h ▸ List.get_mem ..

/-- C7: `_get_random_node` picks among the currently alive nodes, the
random draw modelled as an index oracle (`random.choice` draws uniformly);
with no alive node it reconnects every node once, in pool order, retries
the pick exactly once, and raises `ReconnectError` when still nothing is
alive.  Every returned connection is alive. -/
theorem get_random_node_spec (p₁ p₂ : Nat) (recAct : Conn → Conn)
    (nodes : List Conn) :
    (∀ c, (nodes.filter (fun n => n.alive)).get?
          (p₁ % (nodes.filter (fun n => n.alive)).length) = some c →
        _get_random_node p₁ p₂ recAct nodes = (.conn c, nodes)) ∧
    (nodes.filter (fun n => n.alive) = [] →
      ((nodes.map recAct).filter (fun n => n.alive) = [] →
          _get_random_node p₁ p₂ recAct nodes = (.reconnectError, nodes.map recAct)) ∧
      (∀ c, ((nodes.map recAct).filter (fun n => n.alive)).get?
            (p₂ % ((nodes.map recAct).filter (fun n => n.alive)).length) = some c →
          _get_random_node p₁ p₂ recAct nodes = (.conn c, nodes.map recAct))) ∧
    (∀ c ns, _get_random_node p₁ p₂ recAct nodes = (.conn c, ns) →
        c.alive = true) := by
  refine ⟨fun c hc => ?_, fun hempty => ⟨fun hempty2 => ?_, fun c hc => ?_⟩,
         fun c ns h => ?_⟩
  · simp only [_get_random_node, chooseFrom_eq_get? _ _ _ hc]
  · simp only [_get_random_node,
      show chooseFrom p₁ (nodes.filter fun n => n.alive) = Option.none from
        by rw [hempty]; rfl,
      show chooseFrom p₂ ((nodes.map recAct).filter fun n => n.alive)
          = Option.none from by rw [hempty2]; rfl]
  · simp only [_get_random_node,
      show chooseFrom p₁ (nodes.filter fun n => n.alive) = Option.none from
        by rw [hempty]; rfl,
      chooseFrom_eq_get? _ _ _ hc]
  · simp only [_get_random_node] at h
    cases h1 : chooseFrom p₁ (nodes.filter fun n => n.alive) with
    | some c' =>
      rw [h1] at h
      have hcc : c' = c := by
        have := congrArg Prod.fst h
        simpa using this
      subst hcc
      exact (List.mem_filter.mp (chooseFrom_mem h1)).2
    | none =>
      rw [h1] at h
      cases h2 : chooseFrom p₂ ((nodes.map recAct).filter fun n => n.alive) with
      | some c' =>
        rw [h2] at h
        have hcc : c' = c := by
          have := congrArg Prod.fst h
          simpa using this
        subst hcc
        exact (List.mem_filter.mp (chooseFrom_mem h2)).2
      | none =>
        rw [h2] at h
        have := congrArg Prod.fst h
        simp at this

/-- Witness for C7: a pool with one dead and one alive node; any pick index
selects the single alive node. -/
theorem get_random_node_spec_witness :
    _get_random_node 5 0 id
        [⟨"a", 1, false, false, false⟩, ⟨"b", 2, true, false, false⟩]
      = (.conn ⟨"b", 2, true, false, false⟩,
         [⟨"a", 1, false, false, false⟩, ⟨"b", 2, true, false, false⟩]) :=
  (get_random_node_spec 5 0 id
    [⟨"a", 1, false, false, false⟩, ⟨"b", 2, true, false, false⟩]).1
    ⟨"b", 2, true, false, false⟩ rfl

/-- C8: with the constructor flag set, the effective `partition_aware`
property holds exactly when a protocol version has been negotiated and is
at least `(1, 4, 0)`; whenever it is false, `random_node` takes the
sequential-failover path regardless of the flag. -/
theorem partition_aware_version_floor (st : PoolState) (reach : Nat → Bool)
    (p₁ p₂ : Nat) (recAct : Conn → Conn)
    (hflag : st.partitionAwareFlag = true) :
    (partition_aware st = true ↔
      ∃ v, st.protocolVersion = some v ∧ verLE (1, 4, 0) v = true) ∧
    (partition_aware st = false →
      random_node reach p₁ p₂ recAct st = seqSelect reach st) := by
  constructor
  · cases hv : st.protocolVersion with
    | none =>
      simp [partition_aware, hflag, partition_awareness_supported_by_protocol, hv]
    | some v =>
      simp [partition_aware, hflag, partition_awareness_supported_by_protocol, hv]
  · intro h
    simp [random_node, h]

/-- Witness for C8: flag set but negotiated version (1, 2, 0) below the
floor — selection is the sequential path. -/
theorem partition_aware_version_floor_witness :
    random_node (fun _ => false) 0 0 id
        ⟨[⟨"a", 1, true, false, false⟩], 0, true, some (1, 2, 0)⟩
      = seqSelect (fun _ => false)
        ⟨[⟨"a", 1, true, false, false⟩], 0, true, some (1, 2, 0)⟩ :=
  (partition_aware_version_floor
    ⟨[⟨"a", 1, true, false, false⟩], 0, true, some (1, 2, 0)⟩
    (fun _ => false) 0 0 id rfl).2 rfl

/-- C3 counterexample: under the sequential policy with no protocol version
yet negotiated, the failure of the first endpoint does NOT short-circuit
`Client.connect` — the loop proceeds to the second endpoint, negotiates a
version there, and the call completes successfully (first pool entry marked
failed, second alive, current index 1). -/
theorem connect_no_short_circuit :
    (fun i => decide (i = 1)) 0 = false ∧
    connect (fun i => decide (i = 1)) (1, 4, 0) false [("a", 1), ("b", 2)]
      = .ok ⟨some (1, 4, 0),
             [⟨"a", 1, false, true, false⟩, ⟨"b", 2, true, false, false⟩], 1⟩ :=
  ⟨rfl, rfl⟩

theorem connectStep_pv_some (reach : Nat → Bool) (srvVer : Version)
    (flag : Bool) (i : Nat) (st : ConnectState) (host : String) (port : Nat)
    (h : st.protocolVersion.isSome = true) :
    ((connectStep reach srvVer flag i st host port).protocolVersion).isSome
      = true := by
  unfold connectStep
  by_cases h1 : (st.protocolVersion.isNone || paProp flag st.protocolVersion) = true
  · rw [if_pos h1]
    by_cases h2 : reach i = true
    · rw [if_pos h2]
      rfl
    · rw [if_neg h2]
      exact h
  · rw [if_neg h1]
    exact h

theorem connectLoop_pv_isSome (reach : Nat → Bool) (srvVer : Version)
    (flag : Bool) (cs : List (String × Nat)) :
    ∀ (i : Nat) (st : ConnectState), st.protocolVersion.isSome = true →
    ((connectLoop reach srvVer flag i st cs).protocolVersion).isSome = true := by
  induction cs with
  | nil => intro i st h; exact h
  | cons c cs ih =>
    intro i st h
    exact ih (i + 1) _ (connectStep_pv_some reach srvVer flag i st c.1 c.2 h)

theorem connectLoop_pv_none_iff (reach : Nat → Bool) (srvVer : Version)
    (flag : Bool) (cs : List (String × Nat)) :
    ∀ (i : Nat) (st : ConnectState), st.protocolVersion = Option.none →
    ((connectLoop reach srvVer flag i st cs).protocolVersion = Option.none ↔
      ∀ k < cs.length, reach (i + k) = false) := by
  induction cs with
  | nil =>
    intro i st h
    simpa [connectLoop] using h
  | cons c cs ih =>
    intro i st hpv
    rw [connectLoop]
    cases hreach : reach i with
    | true =>
      have hpv' : (connectStep reach srvVer flag i st c.1 c.2).protocolVersion
          = some srvVer := by
        simp [connectStep, hpv, hreach]
      have hsome := connectLoop_pv_isSome reach srvVer flag cs (i + 1) _
        (by rw [hpv']; rfl)
      refine iff_of_false ?_ ?_
      · intro h0
        rw [h0] at hsome
        simp at hsome
      · intro hall
        have h0 := hall 0 (Nat.succ_pos _)
        rw [Nat.add_zero, hreach] at h0
        cases h0
    | false =>
      have hstep : (connectStep reach srvVer flag i st c.1 c.2).protocolVersion
          = Option.none := by
        simp [connectStep, hpv, hreach]
      rw [ih (i + 1) _ hstep]
      constructor
      · intro hall k hk
        cases k with
        | zero => simpa using hreach
        | succ k' =>
          have := hall k' (by simpa using Nat.lt_of_succ_lt_succ hk)
          rw [show i + (k' + 1) = i + 1 + k' by omega]
          exact this
      · intro hall k hk
        have := hall (k + 1) (by simpa using Nat.succ_lt_succ hk)
        rw [show i + 1 + k = i + (k + 1) by omega]
        exact this

theorem connectStep_len (reach : Nat → Bool) (srvVer : Version) (flag : Bool)
    (i : Nat) (st : ConnectState) (host : String) (port : Nat) :
    (connectStep reach srvVer flag i st host port).nodes.length
      = st.nodes.length + 1 := by
  unfold connectStep
  by_cases h1 : (st.protocolVersion.isNone || paProp flag st.protocolVersion) = true
  · rw [if_pos h1]
    by_cases h2 : reach i = true
    · rw [if_pos h2]; simp
    · rw [if_neg h2]; simp
  · rw [if_neg h1]; simp

theorem connectLoop_len (reach : Nat → Bool) (srvVer : Version) (flag : Bool)
    (cs : List (String × Nat)) :
    ∀ (i : Nat) (st : ConnectState),
    (connectLoop reach srvVer flag i st cs).nodes.length
      = st.nodes.length + cs.length := by
  induction cs with
  | nil => intro i st; simp [connectLoop]
  | cons c cs ih =>
    intro i st
    rw [connectLoop, ih (i + 1) _, connectStep_len]
    simp
    omega

/-- C3 amended: a connection failure of an endpoint never aborts
`Client.connect` under either policy: every candidate is processed (one
pool entry per candidate), the failed endpoint is marked failed and is
scheduled for reconnection exactly when the `partition_aware` property held
at the moment of failure (flag set and a version ≥ (1,4,0) already
negotiated), and `ReconnectError` is raised at the end exactly when every
endpoint's connection attempt failed, i.e. when no protocol version was
negotiated. -/
theorem connect_failure_semantics (reach : Nat → Bool) (srvVer : Version)
    (flag : Bool) (cands : List (String × Nat)) :
    (connect reach srvVer flag cands = .error () ↔
      ∀ k < cands.length, reach k = false) ∧
    (∀ st, connect reach srvVer flag cands = .ok st →
      st.nodes.length = cands.length) ∧
    (∀ i st host port, reach i = false →
      (st.protocolVersion.isNone || paProp flag st.protocolVersion) = true →
      connectStep reach srvVer flag i st host port
        = { st with nodes := st.nodes ++
            [⟨host, port, false, true, paProp flag st.protocolVersion⟩] }) := by
  have hiff := connectLoop_pv_none_iff reach srvVer flag cands 0 ⟨Option.none, [], 0⟩ rfl
  simp only [Nat.zero_add] at hiff
  refine ⟨?_, fun st h => ?_, fun i st host port hreach hcond => ?_⟩
  · unfold connect
    cases hfin : (connectLoop reach srvVer flag 0 ⟨Option.none, [], 0⟩ cands).protocolVersion with
    | none =>
      rw [hfin] at hiff
      simp only [hfin, Option.isNone_none, if_pos]
      simpa using hiff
    | some v =>
      rw [hfin] at hiff
      simp only [hfin, Option.isNone_some]
      constructor
      · intro hc
        cases hc
      · intro hall
        have := hiff.mpr hall
        cases this
  · have h' : (if (connectLoop reach srvVer flag 0
          ⟨Option.none, [], 0⟩ cands).protocolVersion.isNone = true
        then Except.error ()
        else Except.ok (connectLoop reach srvVer flag 0 ⟨Option.none, [], 0⟩ cands))
        = Except.ok st := h
    cases hfin : (connectLoop reach srvVer flag 0 ⟨Option.none, [], 0⟩ cands).protocolVersion with
    | none =>
      rw [hfin] at h'
      simp at h'
    | some v =>
      rw [hfin] at h'
      simp only [Option.isNone_some] at h'
      rw [if_neg Bool.false_ne_true] at h'
      rw [← Except.ok.inj h', connectLoop_len]
      simp
  · unfold connectStep
    rw [if_pos hcond, if_neg (by rw [hreach]; intro hc; cases hc)]

/-- Witness for C3 (amended): a single unreachable endpoint makes `connect`
raise `ReconnectError`, and a failing step before any negotiated version
appends a failed, unscheduled pool entry. -/
theorem connect_failure_semantics_witness :
    connect (fun _ => false) (1, 4, 0) true [("a", 1)] = .error () ∧
    connectStep (fun _ => false) (1, 4, 0) true 0 ⟨Option.none, [], 0⟩ "a" 1
      = ⟨Option.none, [⟨"a", 1, false, true, false⟩], 0⟩ := by
  constructor
  · exact (connect_failure_semantics (fun _ => false) (1, 4, 0) true
      [("a", 1)]).1.mpr (by decide)
  · exact (connect_failure_semantics (fun _ => false) (1, 4, 0) true
      [("a", 1)]).2.2 0 ⟨Option.none, [], 0⟩ "a" 1 rfl rfl

end Pyignite
